import Mathlib

/-!
Verification development for the UCI-style command interpreter in
`src/ios/stockfishcli.cpp` of the cordova-plugin-stockfish repository.

The interpreter is shallowly embedded: whitespace tokenization of a command
line becomes a `List String`, the `istringstream` extraction operators become
token-list consumers, and the external collaborators (Position model, move
parser, option registry rendering, worker dispatcher) are abstracted as a
record of functions (`Engine`) and explicit state (`SysState`), following the
specification's component boundaries.
-/

namespace StockfishCLI

/-! ### Whitespace tokenization (istream `>>` on std::string) -/

/-- Whitespace characters recognised by `std::istream` formatted extraction. -/
def isSpaceChar (c : Char) : Bool :=
  c = ' ' || c = '\t' || c = '\n' || c = '\r' || c = '\x0b' || c = '\x0c'

/-- Splits a character list into maximal non-whitespace runs; `cur` is the
reversed current run being accumulated. -/
def splitToks : List Char → List Char → List String
  | [], cur => if cur.isEmpty then [] else [String.mk cur.reverse]
  | c :: r, cur =>
      if isSpaceChar c then
        if cur.isEmpty then splitToks r [] else String.mk cur.reverse :: splitToks r []
      else splitToks r (c :: cur)

/-- The token sequence successive `is >> token` extractions produce from a
command line: maximal runs of non-whitespace characters, in order. -/
def tokenize (s : String) : List String :=
  splitToks s.toList []

/-! ### Formatted integer extraction (istream `>>` on an integer field)

`is >> n` skips whitespace, consumes an optional sign and then a maximal
digit run; characters after the digits stay in the stream and begin the next
token. On a token with no leading digits the extraction fails, the target is
set to 0 (C++11 semantics) and the stream enters the fail state, ending the
surrounding `while (is >> token)` loop. -/

/-- Numeric value of a digit run. -/
def digitsToNat (ds : List Char) : Nat :=
  ds.foldl (fun a c => a * 10 + (c.toNat - 48)) 0

/-- Consumes a maximal digit run after an already-consumed optional sign;
returns the parsed value (or `none` on an empty digit run) and the leftover
characters. -/
def parseDigits (cs : List Char) (neg : Bool) : Option Int × List Char :=
  let ds := cs.takeWhile Char.isDigit
  let rest := cs.dropWhile Char.isDigit
  if ds.isEmpty then (none, rest)
  else (some (if neg then -(digitsToNat ds : Int) else (digitsToNat ds : Int)), rest)

/-- Optional sign followed by a maximal digit run. -/
def parseIntCore (cs : List Char) : Option Int × List Char :=
  match cs with
  | [] => parseDigits [] false
  | c :: r =>
      if c = '-' then parseDigits r true
      else if c = '+' then parseDigits r false
      else parseDigits (c :: r) false

/-- One formatted integer extraction from the token stream: on success the
unconsumed tail of the current token (if any) is pushed back as the next
token; on failure the stream fails (`none`). -/
def readInt (ts : List String) : Option (Int × List String) :=
  match ts with
  | [] => none
  | t :: rest =>
      match parseIntCore t.toList with
      | (some n, leftover) =>
          some (n, if leftover.isEmpty then rest else String.mk leftover :: rest)
      | (none, _) => none

/-- Total character budget of a token stream, used as a termination measure. -/
def tokensMeasure : List String → Nat
  | [] => 0
  | t :: ts => t.length + 1 + tokensMeasure ts

theorem dropWhile_length_le (p : α → Bool) : ∀ l : List α, (l.dropWhile p).length ≤ l.length := by
  intro l
  induction l with
  | nil => simp
  | cons c r ih =>
      by_cases h : p c
      · rw [List.dropWhile_cons_of_pos h]
        exact Nat.le_trans ih (Nat.le_succ _)
      · rw [List.dropWhile_cons_of_neg h]

theorem parseDigits_length {cs rest : List Char} {neg : Bool} {n : Int}
    (h : parseDigits cs neg = (some n, rest)) : rest.length < cs.length := by
  unfold parseDigits at h
  by_cases he : (cs.takeWhile Char.isDigit).isEmpty = true
  · rw [if_pos he] at h
    exact absurd h (by simp)
  · rw [if_neg he] at h
    injection h with h1 h2
    cases cs with
    | nil => simp [List.takeWhile] at he
    | cons c tl =>
        by_cases hc : Char.isDigit c
        · have hrest : rest = tl.dropWhile Char.isDigit := by
            rw [List.dropWhile_cons_of_pos hc] at h2
            exact h2.symm
          have hle := dropWhile_length_le Char.isDigit tl
          rw [hrest]
          simpa using Nat.lt_succ_of_le hle
        · rw [List.takeWhile_cons_of_neg hc] at he
          simp at he

theorem parseIntCore_length {cs rest : List Char} {n : Int}
    (h : parseIntCore cs = (some n, rest)) : rest.length < cs.length := by
  unfold parseIntCore at h
  cases cs with
  | nil => exact parseDigits_length h
  | cons c r =>
      by_cases h1 : c = '-'
      · simp only [h1, if_true] at h
        exact Nat.lt_trans (parseDigits_length h) (Nat.lt_succ_self _)
      · by_cases h2 : c = '+'
        · simp only [h1, h2, if_false, if_true] at h
          exact Nat.lt_trans (parseDigits_length h) (Nat.lt_succ_self _)
        · simp only [h1, h2, if_false] at h
          exact parseDigits_length h

theorem readInt_measure {ts ts' : List String} {n : Int}
    (h : readInt ts = some (n, ts')) : tokensMeasure ts' < tokensMeasure ts := by
  cases ts with
  | nil => simp [readInt] at h
  | cons t rest =>
      rcases hp : parseIntCore t.toList with ⟨o, leftover⟩
      simp only [readInt, hp] at h
      cases o with
      | none => simp at h
      | some m =>
          simp only [Option.some.injEq, Prod.mk.injEq] at h
          have hlen : leftover.length < t.length := parseIntCore_length hp
          rcases h with ⟨hn, hts⟩
          by_cases hemp : leftover.isEmpty
          · rw [← hts]
            simp only [hemp, if_true, tokensMeasure]
            omega
          · rw [← hts]
            simp only [hemp, if_false, tokensMeasure]
            have : (String.mk leftover).length = leftover.length := rfl
            omega

/-! ### External collaborators and the option registry -/

/-- Modelled from the spec: the Option Registry is a mapping from option name
to current (string-typed) value, supporting existence check and assignment;
names are case/space-sensitive. Represented as an association list. -/
abbrev OptionsMap := List (String × String)

/-- Modelled from the spec: existence check (`Options.count(name)`). -/
def optCount (opts : OptionsMap) (name : String) : Bool :=
  opts.any (fun e => e.1 = name)

/-- Modelled from the spec: current value of a registered option. -/
def optLookup : OptionsMap → String → Option String
  | [], _ => none
  | e :: r, name => if e.1 = name then some e.2 else optLookup r name

/-- Modelled from the spec: assignment to an already-registered option
(`Options[name] = value`, only ever reached under a successful existence
check); updates the first entry with the given name and creates nothing. -/
def optSet : OptionsMap → String → String → OptionsMap
  | [], _, _ => []
  | e :: r, name, v => if e.1 = name then (name, v) :: r else e :: optSet r name v

/-- Modelled from the spec: a boolean variant toggle is enabled when the
corresponding option's current value reads as true. -/
def optIsTrue (opts : OptionsMap) (name : String) : Bool :=
  (optLookup opts name).getD "" = "true"

/-- Modelled from the spec: the external collaborators of the interpreter —
the Move Parser (`to_move`, `none` standing for MOVE_NONE), the Position
Model (`do_move` returning the updated position together with the StateInfo
snapshot it filled in, `set`, `flip`, textual rendering), and the renderings
delegated for `uci` and `eval` output. `P` is the position representation,
`M` the move representation and `S` the StateInfo snapshot, all opaque to
this core. -/
structure Engine (P M S : Type) where
  to_move : P → String → Option M
  do_move : P → M → P × S
  setPos : String → Nat → P
  flip : P → P
  render : P → String
  evalTrace : P → String
  engineInfo : String
  optionsDump : OptionsMap → String

/-! ### Variant flags -/

/-- Modelled from the spec: the standard-variant value the flag computation
starts from. -/
def STANDARD_VARIANT : Nat := 0

/-- Modelled from the spec: one bit per variant toggle. -/
def CHESS960_VARIANT : Nat := 1

/-- Modelled from the spec: one bit per variant toggle. -/
def ATOMIC_VARIANT : Nat := 2

/-- Modelled from the spec: one bit per variant toggle. -/
def HORDE_VARIANT : Nat := 4

/-- Modelled from the spec: one bit per variant toggle. -/
def HOUSE_VARIANT : Nat := 8

/-- Modelled from the spec: one bit per variant toggle. -/
def KOTH_VARIANT : Nat := 16

/-- Modelled from the spec: one bit per variant toggle. -/
def RACE_VARIANT : Nat := 32

/-- Modelled from the spec: one bit per variant toggle. -/
def THREECHECK_VARIANT : Nat := 64

/-- Which variant support is compiled into the build (the preprocessor
conditionals ATOMIC, HORDE, HOUSE, KOTH, RACE, THREECHECK around the flag
computation and the horde start FEN). -/
structure Build where
  atomic : Bool
  horde : Bool
  house : Bool
  koth : Bool
  race : Bool
  threecheck : Bool
deriving DecidableEq

/-- Variant flag computation at the top of `position()`: starts from the
standard value and ORs in one bit per enabled (and compiled-in) option. -/
def variantFlags (b : Build) (opts : OptionsMap) : Nat :=
  let v := STANDARD_VARIANT
  let v := if optIsTrue opts "UCI_Chess960" then v ||| CHESS960_VARIANT else v
  let v := if b.atomic && optIsTrue opts "UCI_Atomic" then v ||| ATOMIC_VARIANT else v
  let v := if b.horde && optIsTrue opts "UCI_Horde" then v ||| HORDE_VARIANT else v
  let v := if b.house && optIsTrue opts "UCI_House" then v ||| HOUSE_VARIANT else v
  let v := if b.koth && optIsTrue opts "UCI_KingOfTheHill" then v ||| KOTH_VARIANT else v
  let v := if b.race && optIsTrue opts "UCI_Race" then v ||| RACE_VARIANT else v
  let v := if b.threecheck && optIsTrue opts "UCI_3Check" then v ||| THREECHECK_VARIANT else v
  v

/-- FEN string of the initial position, normal chess (StartFEN). -/
def StartFEN : String := "rnbqkbnr/pppppppp/8/8/8/8/PPPPPPPP/RNBQKBNR w KQkq - 0 1"

/-- FEN string of the initial position, horde variant (StartFENHorde). -/
def StartFENHorde : String :=
  "rnbqkbnr/pppppppp/8/1PP2PP1/PPPPPPPP/PPPPPPPP/PPPPPPPP/PPPPPPPP w kq - 0 1"

/-- FEN selected by the `startpos` branch: under a HORDE build the horde
start FEN when the horde flag is set, otherwise the standard start FEN. -/
def startposFen (b : Build) (variant : Nat) : String :=
  if b.horde then
    (if variant &&& HORDE_VARIANT ≠ 0 then StartFENHorde else StartFEN)
  else StartFEN

/-! ### The position command handler -/

/-- FEN accumulation of the `fen` branch: `fen += token + " "` for every
token before `moves` (note each token contributes a trailing space). -/
def fenJoin (ts : List String) : String :=
  String.join (ts.map (fun t => t ++ " "))

/-- The setup-move replay loop at the end of `position()`: while a token
extracts and parses to a legal move, push the StateInfo filled by `do_move`
and continue from the updated position. Returns the final position and the
stack contents listed in push order (first pushed first). -/
def replayMoves (e : Engine P M S) : List String → P → P × List S
  | [], p => (p, [])
  | t :: ts, p =>
      match e.to_move p t with
      | none => (p, [])
      | some m =>
          let pr := e.do_move p m
          let rst := replayMoves e ts pr.1
          (rst.1, pr.2 :: rst.2)

/-- The `position` command handler: recomputes the variant flags from the
current registry, reads the first token (`startpos` selects the start FEN and
then consumes one following token unconditionally — the `moves` literal when
present; `fen` collects tokens up to a `moves` literal; anything else aborts
with no state change), installs the FEN via `set`, replaces the State History
Stack with a fresh empty one and replays the remaining tokens. Returns the
resulting position and State History Stack. -/
def position (e : Engine P M S) (b : Build) (opts : OptionsMap)
    (pos : P) (ss : List S) (ts : List String) : P × List S :=
  let variant := variantFlags b opts
  match ts with
  | [] => (pos, ss)
  | t :: rest =>
      if t = "startpos" then
        replayMoves e (rest.drop 1) (e.setPos (startposFen b variant) variant)
      else if t = "fen" then
        replayMoves e ((rest.dropWhile (fun u => u ≠ "moves")).drop 1)
          (e.setPos (fenJoin (rest.takeWhile (fun u => u ≠ "moves"))) variant)
      else (pos, ss)

/-! ### The setoption command handler -/

/-- Name-collection loop of `setoption()`: consume tokens up to (but not
including) a literal `value`, appending each to the name with a single-space
separator when the name is nonempty; returns the joined name and the
remaining tokens (those after the `value` literal, if it occurred). -/
def optNameLoop : List String → String → String × List String
  | [], acc => (acc, [])
  | t :: ts, acc =>
      if t = "value" then (acc, ts)
      else optNameLoop ts (acc ++ (if acc.isEmpty then "" else " ") ++ t)

/-- Value-collection loop of `setoption()`: join all remaining tokens with
single spaces. -/
def optValueLoop : List String → String → String
  | [], acc => acc
  | t :: ts, acc => optValueLoop ts (acc ++ (if acc.isEmpty then "" else " ") ++ t)

/-- The `setoption` command handler: consume the `name` token, collect the
joined name and value, then either assign the value to the registered option
(no output) or report `No such option: <name>` leaving the registry
untouched. Returns the updated registry and the output lines. -/
def setoption (opts : OptionsMap) (ts : List String) : OptionsMap × List String :=
  let ts1 := ts.drop 1
  let pr := optNameLoop ts1 ""
  let value := optValueLoop pr.2 ""
  if optCount opts pr.1 then (optSet opts pr.1 value, [])
  else (opts, ["No such option: " ++ pr.1])

/-! ### The go command handler -/

/-- Modelled from the spec: the Search Limits value record — per side
remaining time and increment, moves-to-go, requested depth/nodes/movetime/
mate-in-N, infinite and ponder flags, the restricted search-move list (the
move-parser result of each attempted token, MOVE_NONE included as `none`)
and the start timestamp. -/
structure LimitsType (M : Type) where
  searchmoves : List (Option M)
  timeWhite : Int
  timeBlack : Int
  incWhite : Int
  incBlack : Int
  movestogo : Int
  depth : Int
  nodes : Int
  movetime : Int
  mate : Int
  infinite : Bool
  ponder : Bool
  startTime : Int
deriving DecidableEq

/-- The zero/unset defaults of a freshly constructed limits record. -/
def limitsDefault (M : Type) : LimitsType M :=
  { searchmoves := [], timeWhite := 0, timeBlack := 0, incWhite := 0, incBlack := 0,
    movestogo := 0, depth := 0, nodes := 0, movetime := 0, mate := 0,
    infinite := false, ponder := false, startTime := 0 }

/-- Token loop of `go()`: `searchmoves` greedily consumes every remaining
token as an attempted move; each numeric keyword extracts one integer (on
extraction failure the target is zeroed and the failed stream ends the
loop); `infinite` and `ponder` set their flag; anything else is skipped. -/
def goLoop (e : Engine P M S) (pos : P) : List String → LimitsType M → LimitsType M
  | [], l => l
  | t :: ts, l =>
      if t = "searchmoves" then
        { l with searchmoves := l.searchmoves ++ ts.map (fun u => e.to_move pos u) }
      else if t = "wtime" then
        match h : readInt ts with
        | some (n, ts') => goLoop e pos ts' { l with timeWhite := n }
        | none => { l with timeWhite := 0 }
      else if t = "btime" then
        match h : readInt ts with
        | some (n, ts') => goLoop e pos ts' { l with timeBlack := n }
        | none => { l with timeBlack := 0 }
      else if t = "winc" then
        match h : readInt ts with
        | some (n, ts') => goLoop e pos ts' { l with incWhite := n }
        | none => { l with incWhite := 0 }
      else if t = "binc" then
        match h : readInt ts with
        | some (n, ts') => goLoop e pos ts' { l with incBlack := n }
        | none => { l with incBlack := 0 }
      else if t = "movestogo" then
        match h : readInt ts with
        | some (n, ts') => goLoop e pos ts' { l with movestogo := n }
        | none => { l with movestogo := 0 }
      else if t = "depth" then
        match h : readInt ts with
        | some (n, ts') => goLoop e pos ts' { l with depth := n }
        | none => { l with depth := 0 }
      else if t = "nodes" then
        match h : readInt ts with
        | some (n, ts') => goLoop e pos ts' { l with nodes := n }
        | none => { l with nodes := 0 }
      else if t = "movetime" then
        match h : readInt ts with
        | some (n, ts') => goLoop e pos ts' { l with movetime := n }
        | none => { l with movetime := 0 }
      else if t = "mate" then
        match h : readInt ts with
        | some (n, ts') => goLoop e pos ts' { l with mate := n }
        | none => { l with mate := 0 }
      else if t = "infinite" then goLoop e pos ts { l with infinite := true }
      else if t = "ponder" then goLoop e pos ts { l with ponder := true }
      else goLoop e pos ts l
termination_by ts _ => tokensMeasure ts
decreasing_by
  all_goals first
    | (have hm := readInt_measure h; simp only [tokensMeasure]; omega)
    | (simp only [tokensMeasure]; omega)

/-- The `go` command handler builds the limits record: the start timestamp is
captured (`now`) before any token is consumed, every other field starts at
its zero/unset default, and the token loop fills in the rest. -/
def go (e : Engine P M S) (pos : P) (now : Int) (ts : List String) : LimitsType M :=
  goLoop e pos ts { limitsDefault M with startTime := now }

/-- The keywords the `go` token loop recognises. -/
def goKeywords : List String :=
  ["searchmoves", "wtime", "btime", "winc", "binc", "movestogo", "depth",
   "nodes", "movetime", "mate", "infinite", "ponder"]

/-! ### The command dispatcher -/

/-- The process-wide state the dispatcher operates on: the single Position
instance and the State History Stack (`SetupStates`, listed in push order),
together with the modelled external state the handlers touch — the option
registry, the stop / stop-on-ponderhit signals, the current search limits
(`Search::Limits`), the accumulated available-nodes counter, a count of
`start_searching` wake-ups, a count of `Search::clear()` calls, and the list
of `start_thinking` requests handed to the worker dispatcher. -/
structure SysState (P M S : Type) where
  pos : P
  setupStates : List S
  options : OptionsMap
  stop : Bool
  stopOnPonderhit : Bool
  limits : LimitsType M
  availableNodes : Int
  wakeCalls : Nat
  searchClears : Nat
  thinks : List (P × LimitsType M × List S)
deriving DecidableEq

/-- The `command()` entry point: tokenize the line (an empty or blank line
yields an empty first token), route on the first token and run the matching
handler; a first token matching no branch echoes `Unknown command:` followed
by the original line. Returns the updated state and the output blocks
emitted. -/
def command (e : Engine P M S) (b : Build) (now : Int)
    (s : SysState P M S) (cmd : String) : SysState P M S × List String :=
  let ts := tokenize cmd
  let token := ts.headD ""
  let rest := ts.tail
  if token = "quit" ∨ token = "stop" ∨ (token = "ponderhit" ∧ s.stopOnPonderhit = true) then
    ({ s with stop := true, wakeCalls := s.wakeCalls + 1 }, [])
  else if token = "ponderhit" then
    ({ s with limits := { s.limits with ponder := false } }, [])
  else if token = "uci" then
    (s, ["id name " ++ e.engineInfo ++ "\n" ++ e.optionsDump s.options ++ "\nuciok"])
  else if token = "ucinewgame" then
    ({ s with searchClears := s.searchClears + 1, availableNodes := 0 }, [])
  else if token = "isready" then (s, ["readyok"])
  else if token = "go" then
    ({ s with thinks := s.thinks ++ [(s.pos, go e s.pos now rest, s.setupStates)] }, [])
  else if token = "position" then
    let pr := position e b s.options s.pos s.setupStates rest
    ({ s with pos := pr.1, setupStates := pr.2 }, [])
  else if token = "setoption" then
    let pr := setoption s.options rest
    ({ s with options := pr.1 }, pr.2)
  else if token = "flip" then ({ s with pos := e.flip s.pos }, [])
  else if token = "d" then (s, [e.render s.pos])
  else if token = "eval" then (s, [e.evalTrace s.pos])
  else (s, ["Unknown command: " ++ cmd])

/-! ### Specification-side definitions

These follow the spec's words rather than the code, for refinement-style
comparison with the embedded handlers. -/

/-- Replay semantics in the spec's words: starting from a position, consume
exactly the longest prefix of tokens that successively parse to legal moves,
ending at the reached position with one snapshot per applied move in push
order; the first non-parsing token (or end of input) stops the replay. The
relation is deterministic: for each `(p, ts)` exactly one rule applies. -/
inductive Replays (e : Engine P M S) : P → List String → P → List S → Prop where
  | stopEnd : ∀ p, Replays e p [] p []
  | stopFail : ∀ p t ts, e.to_move p t = none → Replays e p (t :: ts) p []
  | step : ∀ p t ts m p1 si p2 sis, e.to_move p t = some m → e.do_move p m = (p1, si) →
      Replays e p1 ts p2 sis → Replays e p (t :: ts) p2 (si :: sis)

/-- Tokens joined with single spaces, in the spec's words. -/
def joinSp : List String → String
  | [] => ""
  | t :: ts => if ts.isEmpty then t else t ++ " " ++ joinSp ts

/-- The common accumulator behaviour of the two `setoption` joining loops. -/
def foldJoin : String → List String → String
  | acc, [] => acc
  | acc, t :: ts => foldJoin (acc ++ (if acc.isEmpty then "" else " ") ++ t) ts

/-! ### Concrete instances used by the witnesses -/

/-- A small concrete engine: positions, moves and snapshots are naturals;
`e2e4` and `d2d4` always parse, everything else is MOVE_NONE; `do_move` adds
the move value and snapshots the pre-move position; `set` is injective on
(FEN length, flags). -/
def cEng : Engine Nat Nat Nat :=
  { to_move := fun _ t => if t = "e2e4" then some 1 else if t = "d2d4" then some 2 else none,
    do_move := fun p m => (p + m, p),
    setPos := fun f v => f.length + 100 * v,
    flip := fun p => p + 1000,
    render := fun _ => "board",
    evalTrace := fun _ => "static eval",
    engineInfo := "engine",
    optionsDump := fun _ => "options" }

/-- A build with no variant support compiled in. -/
def cBuild : Build :=
  { atomic := false, horde := false, house := false, koth := false,
    race := false, threecheck := false }

/-- A concrete dispatcher state with two registered options. -/
def cState : SysState Nat Nat Nat :=
  { pos := 7, setupStates := [3], options := [("Hash", "16"), ("Some Long Name", "old")],
    stop := false, stopOnPonderhit := false, limits := { limitsDefault Nat with ponder := true },
    availableNodes := 5, wakeCalls := 0, searchClears := 0, thinks := [] }

/-- The same state with the stop-on-ponderhit condition armed. -/
def cStateArmed : SysState Nat Nat Nat :=
  { cState with stopOnPonderhit := true }

end StockfishCLI

namespace StockfishCLI
variable {P M S : Type}

theorem goLoop_nil (e : Engine P M S) (pos : P) (l : LimitsType M) : goLoop e pos [] l = l := by
  simp [goLoop]

theorem goLoop_sm (e : Engine P M S) (pos : P) (ts : List String) (l : LimitsType M) :
    goLoop e pos ("searchmoves" :: ts) l =
      { l with searchmoves := l.searchmoves ++ ts.map (fun u => e.to_move pos u) } := by
  simp [goLoop]

theorem goLoop_wtime (e : Engine P M S) (pos : P) (ts ts' : List String) (n : Int)
    (l : LimitsType M) (h : readInt ts = some (n, ts')) :
    goLoop e pos ("wtime" :: ts) l = goLoop e pos ts' { l with timeWhite := n } := by
  simp [goLoop]
  split <;> simp_all

theorem goLoop_btime (e : Engine P M S) (pos : P) (ts ts' : List String) (n : Int)
    (l : LimitsType M) (h : readInt ts = some (n, ts')) :
    goLoop e pos ("btime" :: ts) l = goLoop e pos ts' { l with timeBlack := n } := by
  simp [goLoop]
  split <;> simp_all

theorem goLoop_movestogo (e : Engine P M S) (pos : P) (ts ts' : List String) (n : Int)
    (l : LimitsType M) (h : readInt ts = some (n, ts')) :
    goLoop e pos ("movestogo" :: ts) l = goLoop e pos ts' { l with movestogo := n } := by
  simp [goLoop]
  split <;> simp_all

theorem goLoop_skip (e : Engine P M S) (pos : P) (t : String) (ts : List String)
    (l : LimitsType M) (h1 : t ≠ "searchmoves") (h2 : t ≠ "wtime") (h3 : t ≠ "btime")
    (h4 : t ≠ "winc") (h5 : t ≠ "binc") (h6 : t ≠ "movestogo") (h7 : t ≠ "depth")
    (h8 : t ≠ "nodes") (h9 : t ≠ "movetime") (h10 : t ≠ "mate") (h11 : t ≠ "infinite")
    (h12 : t ≠ "ponder") :
    goLoop e pos (t :: ts) l = goLoop e pos ts l := by
  simp [goLoop, h1, h2, h3, h4, h5, h6, h7, h8, h9, h10, h11, h12]

theorem goLoop_startTime (e : Engine P M S) (pos : P) (ts : List String) (l : LimitsType M) :
    (goLoop e pos ts l).startTime = l.startTime := by
  induction ts, l using goLoop.induct e pos <;>
    (try simp_all [goLoop]) <;> (try split <;> simp_all)

theorem replayMoves_replays (e : Engine P M S) :
    ∀ (ts : List String) (p : P),
      Replays e p ts (replayMoves e ts p).1 (replayMoves e ts p).2 := by
  intro ts
  induction ts with
  | nil => intro p; exact Replays.stopEnd p
  | cons t ts ih =>
      intro p
      rcases hm : e.to_move p t with _ | m
      · have h2 : replayMoves e (t :: ts) p = (p, []) := by
          simp [replayMoves, hm]
        rw [h2]
        exact Replays.stopFail p t ts hm
      · have h2 : replayMoves e (t :: ts) p =
            ((replayMoves e ts (e.do_move p m).1).1,
              (e.do_move p m).2 :: (replayMoves e ts (e.do_move p m).1).2) := by
          simp [replayMoves, hm]
        rw [h2]
        exact Replays.step p t ts m (e.do_move p m).1 (e.do_move p m).2 _ _ hm rfl (ih _)

theorem takeWhile_moves (a b : List String) (h : "moves" ∉ a) :
    (a ++ "moves" :: b).takeWhile (fun u => u ≠ "moves") = a := by
  induction a with
  | nil => simp [List.takeWhile_cons]
  | cons c r ih =>
      simp only [List.mem_cons, not_or] at h
      have hc : c ≠ "moves" := Ne.symm h.1
      rw [List.cons_append, List.takeWhile_cons, if_pos (decide_eq_true hc), ih h.2]

theorem dropWhile_moves (a b : List String) (h : "moves" ∉ a) :
    (a ++ "moves" :: b).dropWhile (fun u => u ≠ "moves") = "moves" :: b := by
  induction a with
  | nil => simp [List.dropWhile_cons]
  | cons c r ih =>
      simp only [List.mem_cons, not_or] at h
      have hc : c ≠ "moves" := Ne.symm h.1
      rw [List.cons_append, List.dropWhile_cons, if_pos (decide_eq_true hc), ih h.2]

theorem optValueLoop_foldJoin : ∀ (ts : List String) (acc : String),
    optValueLoop ts acc = foldJoin acc ts := by
  intro ts
  induction ts with
  | nil => intro acc; rfl
  | cons t r ih => intro acc; simp [optValueLoop, foldJoin, ih]

theorem optNameLoop_no_value : ∀ (ts : List String) (acc : String), "value" ∉ ts →
    optNameLoop ts acc = (foldJoin acc ts, []) := by
  intro ts
  induction ts with
  | nil => intro acc _; rfl
  | cons t r ih =>
      intro acc h
      simp only [List.mem_cons, not_or] at h
      have hc : t ≠ "value" := Ne.symm h.1
      simp [optNameLoop, hc, foldJoin, ih _ h.2]

theorem optNameLoop_split : ∀ (a b : List String) (acc : String), "value" ∉ a →
    optNameLoop (a ++ "value" :: b) acc = (foldJoin acc a, b) := by
  intro a
  induction a with
  | nil => intro b acc _; simp [optNameLoop, foldJoin]
  | cons t r ih =>
      intro b acc h
      simp only [List.mem_cons, not_or] at h
      have hc : t ≠ "value" := Ne.symm h.1
      simp [optNameLoop, hc, foldJoin, ih _ _ h.2]

theorem append_sep_ne (acc t : String) : acc ++ " " ++ t ≠ "" := by
  intro h
  have hl : (acc ++ " " ++ t).length = 0 := by rw [h]; rfl
  rw [String.length_append, String.length_append] at hl
  have h1 : (" " : String).length = 1 := rfl
  omega

theorem foldJoin_acc : ∀ (ts : List String), ts ≠ [] → ∀ acc : String, acc ≠ "" →
    foldJoin acc ts = acc ++ " " ++ joinSp ts := by
  intro ts
  induction ts with
  | nil => intro h; exact absurd rfl h
  | cons t r ih =>
      intro _ acc hacc
      have hae : acc.isEmpty = false := by
        cases hae2 : acc.isEmpty
        · rfl
        · exact absurd ((String.isEmpty_iff acc).mp hae2) hacc
      cases r with
      | nil => simp [foldJoin, joinSp, hae]
      | cons u v =>
          rw [show foldJoin acc (t :: u :: v) = foldJoin (acc ++ " " ++ t) (u :: v) from by
                simp [foldJoin, hae]]
          rw [ih (by simp) (acc ++ " " ++ t) (append_sep_ne acc t)]
          rw [show joinSp (t :: u :: v) = t ++ " " ++ joinSp (u :: v) from by simp [joinSp]]
          simp [String.append_assoc]

theorem foldJoin_joinSp : ∀ ts : List String, (∀ t ∈ ts, t ≠ "") →
    foldJoin "" ts = joinSp ts := by
  intro ts h
  cases ts with
  | nil => rfl
  | cons t r =>
      have ht : t ≠ "" := h t (by simp)
      have step : foldJoin "" (t :: r) = foldJoin t r := rfl
      rw [step]
      cases r with
      | nil => rfl
      | cons u v =>
          rw [foldJoin_acc (u :: v) (by simp) t ht]
          simp [joinSp]

theorem optSet_keys : ∀ (opts : OptionsMap) (n v : String),
    (optSet opts n v).map Prod.fst = opts.map Prod.fst := by
  intro opts n v
  induction opts with
  | nil => rfl
  | cons en r ih =>
      by_cases hc : en.1 = n
      · simp [optSet, hc]
      · simp [optSet, hc, ih]

theorem optLookup_optSet : ∀ (opts : OptionsMap) (n v : String), optCount opts n = true →
    optLookup (optSet opts n v) n = some v := by
  intro opts n v h
  induction opts with
  | nil => simp [optCount] at h
  | cons en r ih =>
      by_cases hc : en.1 = n
      · simp [optSet, hc, optLookup]
      · have hr : optCount r n = true := by
          simp [optCount] at h ⊢
          rcases h with h | h
          · exact absurd h hc
          · exact h
        simp [optSet, hc, optLookup, ih hr]

end StockfishCLI

namespace StockfishCLI
variable {P M S : Type}

theorem position_startpos (e : Engine P M S) (b : Build) (opts : OptionsMap)
    (p : P) (ss : List S) (rest : List String) :
    position e b opts p ss ("startpos" :: rest) =
      replayMoves e (rest.drop 1)
        (e.setPos (startposFen b (variantFlags b opts)) (variantFlags b opts)) := rfl

theorem position_fen (e : Engine P M S) (b : Build) (opts : OptionsMap)
    (p : P) (ss : List S) (rest : List String) :
    position e b opts p ss ("fen" :: rest) =
      replayMoves e ((rest.dropWhile (fun u => u ≠ "moves")).drop 1)
        (e.setPos (fenJoin (rest.takeWhile (fun u => u ≠ "moves"))) (variantFlags b opts)) := rfl

/-- C1: in the `go` handler, once `searchmoves` is encountered every
subsequent token of the command line is consumed as an attempted search move
until end of input; in particular on `searchmoves e2e4 d2d4 depth 10` the
tokens `depth` and `10` are themselves handed to the move parser and the
depth field of the resulting limits record keeps its default, never set. -/
theorem C1_searchmoves_greedy (e : Engine P M S) (pos : P) (now : Int)
    (ts : List String) (l : LimitsType M) :
    goLoop e pos ("searchmoves" :: ts) l =
      { l with searchmoves := l.searchmoves ++ ts.map (fun u => e.to_move pos u) } ∧
    (goLoop e pos ("searchmoves" :: ts) l).depth = l.depth ∧
    go e pos now ["searchmoves", "e2e4", "d2d4", "depth", "10"] =
      ({ limitsDefault M with
          startTime := now,
          searchmoves := [e.to_move pos "e2e4", e.to_move pos "d2d4",
                          e.to_move pos "depth", e.to_move pos "10"] }) := by
  refine ⟨goLoop_sm e pos ts l, ?_, ?_⟩
  · rw [goLoop_sm]
  · show goLoop e pos ("searchmoves" :: ["e2e4", "d2d4", "depth", "10"])
        { limitsDefault M with startTime := now } = _
    rw [goLoop_sm]
    rfl

/-- C2: a `position` command with a recognized prefix (`startpos` or
`fen ...`) followed by a move list replays exactly the longest prefix of
tokens that parse to legal moves against the successively updated position
(the `Replays` relation, which is deterministic, stops precisely at the
first non-parsing token or at end of input and records one snapshot per
applied move in push order); the handler is pure and emits nothing, so a
trailing garbage token terminates replay with no error. -/
theorem C2_replay_longest_prefix (e : Engine P M S) (b : Build) (opts : OptionsMap)
    (p : P) (ss : List S) (fenToks ms : List String) (hf : "moves" ∉ fenToks) :
    position e b opts p ss ("startpos" :: "moves" :: ms) =
      replayMoves e ms (e.setPos (startposFen b (variantFlags b opts)) (variantFlags b opts)) ∧
    position e b opts p ss ("fen" :: (fenToks ++ "moves" :: ms)) =
      replayMoves e ms (e.setPos (fenJoin fenToks) (variantFlags b opts)) ∧
    (∀ (q : P) (ts : List String),
        Replays e q ts (replayMoves e ts q).1 (replayMoves e ts q).2) := by
  refine ⟨rfl, ?_, fun q ts => replayMoves_replays e ts q⟩
  rw [position_fen, takeWhile_moves _ _ hf, dropWhile_moves _ _ hf]
  rfl

theorem C2_witness :
    position cEng cBuild [] 0 [] ("startpos" :: "moves" :: ["e2e4", "xx"]) =
      replayMoves cEng ["e2e4", "xx"]
        (cEng.setPos (startposFen cBuild (variantFlags cBuild [])) (variantFlags cBuild [])) ∧
    position cEng cBuild [] 0 [] ("fen" :: (["f1", "f2"] ++ "moves" :: ["e2e4", "xx"])) =
      replayMoves cEng ["e2e4", "xx"]
        (cEng.setPos (fenJoin ["f1", "f2"]) (variantFlags cBuild [])) ∧
    Replays cEng 9 ["e2e4", "xx"] (replayMoves cEng ["e2e4", "xx"] 9).1
      (replayMoves cEng ["e2e4", "xx"] 9).2 := by
  have hh := C2_replay_longest_prefix cEng cBuild [] 0 [] ["f1", "f2"] ["e2e4", "xx"] (by decide)
  exact ⟨hh.1, hh.2.1, hh.2.2 9 ["e2e4", "xx"]⟩

/-- C3: a `position` command whose first token is neither `startpos` nor
`fen` (or which has no token at all) aborts and leaves the Position and the
State History Stack exactly as they were before the call. -/
theorem C3_unrecognized_abort (e : Engine P M S) (b : Build) (opts : OptionsMap)
    (p : P) (ss : List S) :
    position e b opts p ss [] = (p, ss) ∧
    (∀ (t : String) (ts : List String), t ≠ "startpos" → t ≠ "fen" →
        position e b opts p ss (t :: ts) = (p, ss)) := by
  refine ⟨rfl, fun t ts h1 h2 => ?_⟩
  simp [position, h1, h2]

theorem C3_witness :
    position cEng cBuild [] 7 [3] [] = (7, [3]) ∧
    position cEng cBuild [] 7 [3] ["bogus", "e2e4"] = (7, [3]) :=
  ⟨(C3_unrecognized_abort cEng cBuild [] 7 [3]).1,
   (C3_unrecognized_abort cEng cBuild [] 7 [3]).2 "bogus" ["e2e4"] (by decide) (by decide)⟩

/-- C4: for every `setoption` command, writing `nm` for the joined option
name and `v` for the joined value: when `nm` is registered its value is
assigned to `v` and no output line is produced (the update preserves the
registry's key set); when it is not registered exactly one line
`No such option: <nm>` is produced and the registry is returned unchanged,
so no new entry is ever created. -/
theorem C4_setoption_registry (opts : OptionsMap) (ts : List String) :
    (optCount opts (optNameLoop (ts.drop 1) "").1 = true →
        setoption opts ts =
          (optSet opts (optNameLoop (ts.drop 1) "").1
            (optValueLoop (optNameLoop (ts.drop 1) "").2 ""), []) ∧
        optLookup (setoption opts ts).1 (optNameLoop (ts.drop 1) "").1 =
          some (optValueLoop (optNameLoop (ts.drop 1) "").2 "") ∧
        ((setoption opts ts).1).map Prod.fst = opts.map Prod.fst) ∧
    (optCount opts (optNameLoop (ts.drop 1) "").1 = false →
        setoption opts ts = (opts, ["No such option: " ++ (optNameLoop (ts.drop 1) "").1])) := by
  constructor
  · intro h
    rw [List.drop_one] at h
    refine ⟨?_, ?_, ?_⟩ <;>
      simp [setoption, h, optLookup_optSet opts _ _ h, optSet_keys, List.drop_one]
  · intro h
    rw [List.drop_one] at h
    simp [setoption, h, List.drop_one]

theorem C4_witness :
    setoption [("Hash", "16")] ["name", "Hash", "value", "128"] = ([("Hash", "128")], []) ∧
    setoption [] ["name", "Hash", "value", "128"] = ([], ["No such option: Hash"]) := by
  constructor
  · have h1 := (C4_setoption_registry [("Hash", "16")] ["name", "Hash", "value", "128"]).1
      (by decide)
    rw [h1.1]
    decide
  · have h2 := (C4_setoption_registry [] ["name", "Hash", "value", "128"]).2 (by decide)
    rw [h2]
    decide

end StockfishCLI

namespace StockfishCLI
variable {P M S : Type}

/-- C5 counterexample: on `position startpos e2e4` (no `moves` literal) the
handler consumes the token `e2e4` unconditionally while selecting the start
FEN, so nothing is replayed and the stack stays empty — although `e2e4`
parses to a legal move at the installed start position, and the replay the
claim predicts would have applied it and pushed one snapshot. -/
theorem C5_counterexample :
    position cEng cBuild [] 0 [] ["startpos", "e2e4"] = (56, []) ∧
    cEng.to_move 56 "e2e4" = some 1 ∧
    replayMoves cEng ["e2e4"] 56 = (57, [56]) := by
  decide

/-- C5 (amended): when the first token is `startpos`, the standard (or
variant-specific) initial FEN is selected and then the single next token —
whatever it is — is consumed unconditionally when present (it is intended to
be the literal `moves`); a non-`moves` token immediately following
`startpos` is therefore consumed and discarded, not left for the replay
loop, and with no following token nothing more is consumed. -/
theorem C5_startpos_consumes_next (e : Engine P M S) (b : Build) (opts : OptionsMap)
    (p : P) (ss : List S) (t : String) (ts : List String) :
    position e b opts p ss ("startpos" :: t :: ts) =
      replayMoves e ts (e.setPos (startposFen b (variantFlags b opts)) (variantFlags b opts)) ∧
    position e b opts p ss ["startpos"] =
      (e.setPos (startposFen b (variantFlags b opts)) (variantFlags b opts), []) ∧
    position e b opts p ss ("startpos" :: "moves" :: ts) =
      replayMoves e ts (e.setPos (startposFen b (variantFlags b opts)) (variantFlags b opts)) :=
  ⟨rfl, rfl, rfl⟩

/-- C6: the `go` handler stores the timestamp captured at entry, before and
independently of all token parsing, in the startTime field; on
`wtime 60000 btime 60000 movestogo 20` it yields the limits record with
exactly those three fields set and every other field at its zero/unset
default with both flags false; and a token matching no `go` keyword is
silently skipped. -/
theorem C6_go_limits (e : Engine P M S) (pos : P) (now : Int) :
    go e pos now ["wtime", "60000", "btime", "60000", "movestogo", "20"] =
      ({ limitsDefault M with
          startTime := now, timeWhite := 60000, timeBlack := 60000, movestogo := 20 }) ∧
    (∀ ts : List String, (go e pos now ts).startTime = now) ∧
    (∀ (t : String) (ts : List String) (l : LimitsType M), t ∉ goKeywords →
        goLoop e pos (t :: ts) l = goLoop e pos ts l) := by
  refine ⟨?_, ?_, ?_⟩
  · show goLoop e pos _ _ = _
    rw [goLoop_wtime e pos ["60000", "btime", "60000", "movestogo", "20"]
          ["btime", "60000", "movestogo", "20"] 60000 _ rfl,
        goLoop_btime e pos ["60000", "movestogo", "20"] ["movestogo", "20"] 60000 _ rfl,
        goLoop_movestogo e pos ["20"] [] 20 _ rfl, goLoop_nil]
  · intro ts
    show (goLoop e pos ts _).startTime = now
    rw [goLoop_startTime]
  · intro t ts l h
    simp only [goKeywords, List.mem_cons, not_or, List.not_mem_nil, not_false_iff,
      and_true] at h
    obtain ⟨h1, h2, h3, h4, h5, h6, h7, h8, h9, h10, h11, h12⟩ := h
    exact goLoop_skip e pos t ts l h1 h2 h3 h4 h5 h6 h7 h8 h9 h10 h11 h12

theorem C6_witness :
    goLoop cEng 0 ("foo" :: ["infinite"]) (limitsDefault Nat) =
      goLoop cEng 0 ["infinite"] (limitsDefault Nat) ∧
    (go cEng 0 42 ["wtime", "1"]).startTime = 42 :=
  ⟨(C6_go_limits cEng 0 42).2.2 "foo" ["infinite"] (limitsDefault Nat) (by decide),
   (C6_go_limits cEng 0 42).2.1 ["wtime", "1"]⟩

/-- C7: in `setoption` the first token is consumed, the tokens up to (but
not including) a literal `value` are joined with single spaces into the
option name, and the tokens after `value` are joined with single spaces into
the new value; with no `value` token the value is the empty string, and
`name Some Long Name value` sets the option named `Some Long Name` to the
empty string. -/
theorem C7_setoption_joining (opts : OptionsMap) (ns vs : List String)
    (hv : "value" ∉ ns) (hn : ∀ t ∈ ns, t ≠ "") (hw : ∀ t ∈ vs, t ≠ "") :
    setoption opts ("name" :: (ns ++ "value" :: vs)) =
      (if optCount opts (joinSp ns) then (optSet opts (joinSp ns) (joinSp vs), [])
       else (opts, ["No such option: " ++ joinSp ns])) ∧
    setoption opts ("name" :: ns) =
      (if optCount opts (joinSp ns) then (optSet opts (joinSp ns) "", [])
       else (opts, ["No such option: " ++ joinSp ns])) ∧
    setoption [("Some Long Name", "old")] ["name", "Some", "Long", "Name", "value"] =
      ([("Some Long Name", "")], []) := by
  refine ⟨?_, ?_, by decide⟩
  · simp only [setoption]
    rw [show ("name" :: (ns ++ "value" :: vs)).drop 1 = ns ++ "value" :: vs from rfl]
    rw [optNameLoop_split ns vs "" hv, foldJoin_joinSp ns hn]
    dsimp only
    rw [optValueLoop_foldJoin, foldJoin_joinSp vs hw]
  · simp only [setoption]
    rw [show ("name" :: ns).drop 1 = ns from rfl]
    rw [optNameLoop_no_value ns "" hv, foldJoin_joinSp ns hn]
    dsimp only
    rfl

theorem C7_witness :
    setoption [("Some Long Name", "old")]
        ("name" :: (["Some", "Long", "Name"] ++ "value" :: [])) =
      (if optCount [("Some Long Name", "old")] (joinSp ["Some", "Long", "Name"]) then
        (optSet [("Some Long Name", "old")] (joinSp ["Some", "Long", "Name"]) (joinSp []), [])
      else ([("Some Long Name", "old")],
        ["No such option: " ++ joinSp ["Some", "Long", "Name"]])) :=
  (C7_setoption_joining [("Some Long Name", "old")] ["Some", "Long", "Name"] []
    (by decide) (by decide) (by decide)).1

/-- C8: every execution of the `position` command recomputes the
variant-flags integer from scratch from the current option registry (it
enters the handler only as `variantFlags` of the registry at call time, as
the flags argument of `set`); nothing is cached across commands, so a
`setoption` issued between two `position` commands is always reflected in
the second one, which uses the post-`setoption` registry. -/
theorem C8_variant_flags_fresh (e : Engine P M S) (b : Build) (now : Int)
    (s : SysState P M S) (cmd cmd2 : String) (rest srest : List String)
    (h : tokenize cmd = "position" :: rest) (h2 : tokenize cmd2 = "setoption" :: srest) :
    (command e b now s cmd).1.pos = (position e b s.options s.pos s.setupStates rest).1 ∧
    (command e b now s cmd).1.setupStates =
      (position e b s.options s.pos s.setupStates rest).2 ∧
    (∀ ts : List String,
        position e b s.options s.pos s.setupStates ("startpos" :: ts) =
          replayMoves e (ts.drop 1)
            (e.setPos (startposFen b (variantFlags b s.options)) (variantFlags b s.options))) ∧
    (command e b now (command e b now s cmd2).1 cmd).1.pos =
      (position e b (setoption s.options srest).1 s.pos s.setupStates rest).1 := by
  refine ⟨?_, ?_, fun ts => position_startpos e b s.options s.pos s.setupStates ts, ?_⟩
  · simp [command, h]
  · simp [command, h]
  · simp [command, h, h2]

theorem C8_witness :
    (command cEng cBuild 0 cState "position startpos").1.pos =
      (position cEng cBuild cState.options cState.pos cState.setupStates ["startpos"]).1 ∧
    (command cEng cBuild 0
        (command cEng cBuild 0 cState "setoption name UCI_Chess960 value true").1
        "position startpos").1.pos =
      (position cEng cBuild
        (setoption cState.options ["name", "UCI_Chess960", "value", "true"]).1
        cState.pos cState.setupStates ["startpos"]).1 := by
  have hh := C8_variant_flags_fresh cEng cBuild 0 cState "position startpos"
    "setoption name UCI_Chess960 value true" ["startpos"]
    ["name", "UCI_Chess960", "value", "true"] (by decide) (by decide)
  exact ⟨hh.1, hh.2.2.2⟩

/-- C9: dispatching `ponderhit` while the stop-on-ponderhit condition is
armed is treated identically to `stop` (the stop signal is raised and the
main worker is woken); dispatching `ponderhit` otherwise clears the ponder
flag on the current search limits and does not raise the stop signal. -/
theorem C9_ponderhit (e : Engine P M S) (b : Build) (now : Int) (s : SysState P M S) :
    (s.stopOnPonderhit = true →
        command e b now s "ponderhit" = command e b now s "stop" ∧
        (command e b now s "ponderhit").1.stop = true ∧
        (command e b now s "ponderhit").1.wakeCalls = s.wakeCalls + 1) ∧
    (s.stopOnPonderhit = false →
        command e b now s "ponderhit" =
          ({ s with limits := { s.limits with ponder := false } }, []) ∧
        (command e b now s "ponderhit").1.stop = s.stop) := by
  have ht : tokenize "ponderhit" = ["ponderhit"] := rfl
  have hs : tokenize "stop" = ["stop"] := rfl
  constructor
  · intro h
    refine ⟨?_, ?_, ?_⟩ <;> simp [command, ht, hs, h]
  · intro h
    refine ⟨?_, ?_⟩ <;> simp [command, ht, h]

theorem C9_witness :
    (command cEng cBuild 0 cStateArmed "ponderhit" = command cEng cBuild 0 cStateArmed "stop") ∧
    command cEng cBuild 0 cState "ponderhit" =
      ({ cState with limits := { cState.limits with ponder := false } }, []) ∧
    (command cEng cBuild 0 cState "ponderhit").1.stop = cState.stop := by
  have h1 := (C9_ponderhit cEng cBuild 0 cStateArmed).1 rfl
  have h2 := (C9_ponderhit cEng cBuild 0 cState).2 rfl
  exact ⟨h1.1, h2.1, h2.2⟩

/-- C10: an empty or all-whitespace command line yields an empty first token
that matches no routing branch, so it falls through to the unknown-command
branch and emits exactly one line `Unknown command: ` followed by the
original (possibly empty) line, leaving the whole dispatcher state — the
Position, the State History Stack and the Option Registry included —
unchanged. -/
theorem C10_blank_line_unknown (e : Engine P M S) (b : Build) (now : Int)
    (s : SysState P M S) (cmd : String) (h : tokenize cmd = []) :
    command e b now s cmd = (s, ["Unknown command: " ++ cmd]) := by
  simp [command, h]

theorem C10_witness :
    command cEng cBuild 0 cState "" = (cState, ["Unknown command: "]) ∧
    command cEng cBuild 0 cState " \t " = (cState, ["Unknown command:  \t "]) :=
  ⟨C10_blank_line_unknown cEng cBuild 0 cState "" rfl,
   C10_blank_line_unknown cEng cBuild 0 cState " \t " (by decide)⟩

end StockfishCLI
